import Mathlib

/-!
Shallow embedding of the opentrade core headers `src/opentrade/risk.h` and
`src/opentrade/market_data.h`, together with theorems settling the claims
about them.

Modelling conventions:
* C++ `double` fields are modelled as `ℚ` (exact equality; IEEE NaN is not
  modelled — the claims here are about which fields enter a comparison, not
  about floating-point arithmetic).
* `int` / `int64_t` / `time_t` are modelled as `ℤ`; `uint32_t` arithmetic is
  carried out on `ℕ` with an explicit `% 2 ^ 32` where the source wraps.
* `std::any` is modelled as a pair of a type tag and a payload (`AnyV`);
  an empty (default-constructed) `std::any` is `Option.none`.
* Stateful member functions become pure functions from the old record to the
  new record; a C++ out-of-bounds vector write (undefined behaviour) is
  modelled by `List.set`, which leaves the list unchanged when the index is
  out of bounds, so the write observably does not land.
-/

namespace Opentrade

/-- Embeds `struct Throttle` of `risk.h`: an event counter `n` scoped to the
one-second bucket `tm` (the `tbb::atomic<int>` is modelled as a plain `ℤ`
since each claim is about the sequential behaviour). -/
structure Throttle where
  n : Int
  tm : Int
  deriving Repr, DecidableEq

/-- Embeds `Throttle::operator()(int tm) const` of `risk.h`:
`if (tm != this->tm) return 0; return n;`.  It is `const` in the source and a
pure function here: reading never modifies the state. -/
def Throttle.read (t : Throttle) (tm : Int) : Int :=
  if tm ≠ t.tm then 0 else t.n

/-- Embeds `Throttle::Update(int tm2)` of `risk.h`, faithfully to the source:
`if (tm2 != tm) { n = 0; tm2 = tm; } else { n++; }`.  Note that the taken
branch assigns the *stored* bucket to the *parameter* (`tm2 = tm`), a dead
store, so the stored `tm` field is never changed; this is modelled by leaving
`tm` untouched. -/
def Throttle.Update (t : Throttle) (tm2 : Int) : Throttle :=
  if tm2 ≠ t.tm then { t with n := 0 } else { t with n := t.n + 1 }

/-- Folds a list of observed seconds through `Throttle.Update`. -/
def Throttle.UpdateAll (t : Throttle) (tms : List Int) : Throttle :=
  tms.foldl Throttle.Update t

/-- Embeds the `Qty`/`Volume` typedefs of `market_data.h` (non-`BACKTEST`
build: `int` and `int64_t`). -/
abbrev Qty := Int

abbrev Volume := Int

/-- Embeds `MarketData::Trade` of `market_data.h` (doubles as `ℚ`). -/
structure Trade where
  qty : Qty
  open_ : Rat
  high : Rat
  low : Rat
  close : Rat
  vwap : Rat
  volume : Volume
  deriving Repr, DecidableEq

/-- Embeds `Trade::operator!=`:
`volume != b.volume || close != b.close || high != b.high || low != b.low`. -/
def Trade.neq (a b : Trade) : Bool :=
  decide (a.volume ≠ b.volume) || decide (a.close ≠ b.close) ||
    decide (a.high ≠ b.high) || decide (a.low ≠ b.low)

/-- Embeds `MarketData::Quote` of `market_data.h`. -/
structure Quote where
  ask_price : Rat
  bid_price : Rat
  ask_size : Qty
  bid_size : Qty
  deriving Repr, DecidableEq

/-- Embeds `Quote::operator!=`:
`ask_price != b.ask_price || ask_size != b.ask_size || bid_price != b.bid_price
 || bid_size != b.bid_size`. -/
def Quote.neq (a b : Quote) : Bool :=
  decide (a.ask_price ≠ b.ask_price) || decide (a.ask_size ≠ b.ask_size) ||
    decide (a.bid_price ≠ b.bid_price) || decide (a.bid_size ≠ b.bid_size)

/-- Embeds `Quote::operator==`: `!(*this != b)`. -/
def Quote.eq (a b : Quote) : Bool :=
  !(Quote.neq a b)

/-- Models one non-empty `std::any` value: a runtime type tag plus a payload
drawn from a universe modelled as `ℤ`.  `std::any_cast<const T*>` succeeds
exactly when the stored tag equals the requested one. -/
structure AnyV where
  ty : Nat
  val : Int
  deriving Repr, DecidableEq

/-- One slot of the `std::vector<std::any>` backing store: `none` is a
default-constructed (empty) `std::any`, on which any `any_cast` throws
`bad_any_cast`. -/
abbrev AnySlot := Option AnyV

/-- Embeds `std::vector::resize(n)` on the `AnyVec`: shrink to `n`, or grow
with default-constructed (empty) `std::any` entries. -/
def resizeVec (v : List AnySlot) (n : Nat) : List AnySlot :=
  if n ≤ v.length then v.take n else v ++ List.replicate (n - v.length) none

/-- Embeds `struct MarketData` of `market_data.h`: timestamp, trade bar, the
five-level depth, and the lazily allocated derived cache
(`AnyVec* derived = nullptr` becomes `Option`; the process-wide
`shared_mutex` is not modelled — the claims are sequential). -/
structure MarketData where
  tm : Int
  trade : Trade
  depth : List Quote
  derived : Option (List AnySlot)
  deriving Repr, DecidableEq

/-- The backing vector `SetDerived` writes into, after its lazy allocation
(`if (!derived) derived = new AnyVec;`) and its conditional resize
(`if (derived->size() <= id) derived->resize(id);`) — faithfully `resize(id)`,
as in the source. -/
def MarketData.setDerivedBacking (md : MarketData) (id : Nat) : List AnySlot :=
  let d := md.derived.getD []
  if d.length ≤ id then resizeVec d id else d

/-- Embeds `MarketData::SetDerived(std::any value, size_t id)`: lazy
allocation, conditional resize, then the indexed write `(*derived)[id] = value`.
When the index is out of bounds the C++ write is undefined behaviour; the
total embedding uses `List.set`, which leaves the list unchanged there, so an
out-of-bounds write observably does not land. -/
def MarketData.SetDerived (md : MarketData) (value : AnyV) (id : Nat) :
    MarketData :=
  { md with derived := some ((md.setDerivedBacking id).set id (some value)) }

/-- Embeds `MarketData::GetDerived<T>(size_t id)`.  The requested type `T`
is the tag `T : ℕ`; the result is `none` where the source returns `{}`
(null): unallocated cache, out-of-range slot, or an `any_cast` that throws
`bad_any_cast` (empty slot or tag mismatch) — the `catch` turns the throw
into `{}`.  The function is total. -/
def MarketData.GetDerived (md : MarketData) (T : Nat) (id : Nat) :
    Option Int :=
  match md.derived with
  | none => none
  | some d =>
    if d.length ≤ id then none
    else
      match d.getD id none with
      | none => none
      | some a => if a.ty = T then some a.val else none

/-- A freshly constructed `MarketData` record: all fields zero, derived cache
never allocated. -/
def mdFresh : MarketData :=
  { tm := 0
    trade := ⟨0, 0, 0, 0, 0, 0, 0⟩
    depth := List.replicate 5 ⟨0, 0, 0, 0⟩
    derived := none }

/-- Embeds `DataSrc::GetId(const char* src)` of `market_data.h`, a name as a
list of character codes:
`if (!src || !*src) return 0;`
`return strlen(src) == 1 ? *src : (GetId(src + 1) << 8) + *src;`
— the `uint32_t` shift-then-add composes into a single `% 2 ^ 32`. -/
def DataSrc.GetId : List Nat → Nat
  | [] => 0
  | [c] => c % 2 ^ 32
  | c :: rest => (DataSrc.GetId rest * 256 + c) % 2 ^ 32

/-- The decode loop body of `DataSrc::GetStr(IdType id)`:
`for (i = 0u; i < 4 && id; ++i) { str[i] = id & 0xFF; id >>= 8; }`
with the loop bound as fuel. -/
def DataSrc.GetStrAux : Nat → Nat → List Nat
  | 0, _ => []
  | fuel + 1, id =>
    if id = 0 then [] else id % 256 :: DataSrc.GetStrAux fuel (id / 256)

/-- Embeds `DataSrc::GetStr(IdType id)`: up to four little-endian bytes,
stopping at the first zero byte. -/
def DataSrc.GetStr (id : Nat) : List Nat :=
  DataSrc.GetStrAux 4 id

/-- Plain little-endian byte packing (no wraparound), used to relate
`DataSrc.GetId` to its mathematical value on short names. -/
def packLE : List Nat → Nat
  | [] => 0
  | c :: rest => c + 256 * packLE rest

/-- Embeds `struct Limits` of `risk.h` (doubles as `ℚ`, all defaulting to 0,
meaning "unbounded"). -/
structure Limits where
  msg_rate : Rat := 0
  msg_rate_per_security : Rat := 0
  order_qty : Rat := 0
  order_value : Rat := 0
  value : Rat := 0
  turnover : Rat := 0
  total_value : Rat := 0
  total_turnover : Rat := 0
  deriving Repr, DecidableEq

/-- Modelled from the spec: the `Order` entity is out of scope of `src/`
(`risk.h` only forward-declares `struct Order`); per the spec the risk
manager consumes "security, quantity, price/notional value" read-only. -/
structure Order where
  sec : Nat
  qty : Rat
  price : Rat
  deriving Repr, DecidableEq

/-- Looks a security's throttle up in an association list, defaulting to a
fresh throttle. -/
def lookupThrottle (l : List (Nat × Throttle)) (k : Nat) : Throttle :=
  match l.find? (fun p => p.1 == k) with
  | none => ⟨0, 0⟩
  | some p => p.2

/-- Stores a security's throttle in an association list. -/
def storeThrottle (l : List (Nat × Throttle)) (k : Nat) (t : Throttle) :
    List (Nat × Throttle) :=
  (k, t) :: l.filter (fun p => p.1 != k)

/-- Looks a security's exposure figure up in an association list. -/
def lookupRat (l : List (Nat × Rat)) (k : Nat) : Rat :=
  match l.find? (fun p => p.1 == k) with
  | none => 0
  | some p => p.2

/-- Modelled from the spec: `RiskManager`'s full state.  `risk.h` only gives
the `disabled_` flag and the `Check`/`CheckMsgRate`/`Disable` surface; the
bodies of `Check` and `CheckMsgRate` (risk.cc) are not under `src/`.  Per the
spec the manager holds the configured `Limits`, a global message-rate
throttle, per-security throttles, and the per-security / total exposure
figures its value and turnover limits are checked against. -/
structure RiskManager where
  disabled : Bool
  limits : Limits
  throttle : Throttle
  secThrottles : List (Nat × Throttle)
  secValue : List (Nat × Rat)
  secTurnover : List (Nat × Rat)
  totalValue : Rat
  totalTurnover : Rat
  deriving Repr, DecidableEq

/-- Embeds `RiskManager::Disable()` of `risk.h`: `disabled_ = true;`. -/
def RiskManager.Disable (rm : RiskManager) : RiskManager :=
  { rm with disabled := true }

/-- Modelled from the spec: `RiskManager::CheckMsgRate` (body not under
`src/`): "evaluates the global and per-security message-rate limits via two
Throttle instances (keyed by current wall-clock second, and by security for
the per-security one); rejects if either configured bound would be exceeded";
a limit of 0 is disabled; the disable switch makes every check pass.  The
throttles are updated through the `Throttle.Update` embedded from `risk.h`. -/
def RiskManager.CheckMsgRate (rm : RiskManager) (o : Order) (now : Int) :
    Bool × RiskManager :=
  if rm.disabled then (true, rm)
  else
    let gt := rm.throttle.Update now
    let rm1 := { rm with throttle := gt }
    if rm.limits.msg_rate ≠ 0 ∧ rm.limits.msg_rate < (gt.read now : Rat) then
      (false, rm1)
    else
      let st := (lookupThrottle rm.secThrottles o.sec).Update now
      let rm2 :=
        { rm1 with secThrottles := storeThrottle rm.secThrottles o.sec st }
      if rm.limits.msg_rate_per_security ≠ 0 ∧
          rm.limits.msg_rate_per_security < (st.read now : Rat) then
        (false, rm2)
      else (true, rm2)

/-- Modelled from the spec: `RiskManager::Check` (body not under `src/`):
"evaluates, in a fixed, deterministic order, all configured Limits (quantity,
order value, per-security value/turnover, total value/turnover) plus the
message-rate check; a limit of 0 is treated as disabled.  Returns false on
the first violated limit ...; returns true if no limit fires.  A global
`disable()` switch, once set, makes `check` unconditionally return true". -/
def RiskManager.Check (rm : RiskManager) (o : Order) (now : Int) :
    Bool × RiskManager :=
  if rm.disabled then (true, rm)
  else
    let v := o.qty * o.price
    if rm.limits.order_qty ≠ 0 ∧ rm.limits.order_qty < o.qty then (false, rm)
    else if rm.limits.order_value ≠ 0 ∧ rm.limits.order_value < v then
      (false, rm)
    else if rm.limits.value ≠ 0 ∧
        rm.limits.value < lookupRat rm.secValue o.sec + v then (false, rm)
    else if rm.limits.turnover ≠ 0 ∧
        rm.limits.turnover < lookupRat rm.secTurnover o.sec + v then
      (false, rm)
    else if rm.limits.total_value ≠ 0 ∧
        rm.limits.total_value < rm.totalValue + v then (false, rm)
    else if rm.limits.total_turnover ≠ 0 ∧
        rm.limits.total_turnover < rm.totalTurnover + v then (false, rm)
    else rm.CheckMsgRate o now

/-- The operations the `RiskManager` exposes (`risk.h` public surface). -/
inductive RiskOp where
  | disable : RiskOp
  | check : Order → Int → RiskOp
  | checkMsgRate : Order → Int → RiskOp
  deriving Repr, DecidableEq

/-- One exposed operation's effect on the manager's state. -/
def RiskManager.step (rm : RiskManager) : RiskOp → RiskManager
  | RiskOp.disable => rm.Disable
  | RiskOp.check o now => (rm.Check o now).2
  | RiskOp.checkMsgRate o now => (rm.CheckMsgRate o now).2

/-- Runs a sequence of exposed operations. -/
def RiskManager.run (rm : RiskManager) (ops : List RiskOp) : RiskManager :=
  ops.foldl RiskManager.step rm

/-- Claim C1.  The claim is false of the code as written: `Throttle::Update`'s
new-second branch stores `0` into `n` and performs the dead store `tm2 = tm`
into its own parameter, so the stored bucket is never replaced.  This theorem
exhibits the code's actual behaviour: the bucket is invariant under every
update, and from the prior state `{n = 0, tm = 0}` the update sequence
[100, 100, 100, 101, 101] leaves the counter read at second 100 after the
first three updates at 0 (the claim says 3) and the counter read at second
101 after all five updates at 0 (the claim says 2). -/
theorem throttle_update_never_replaces_bucket :
    (∀ (t : Throttle) (s : Int), (t.Update s).tm = t.tm) ∧
    Throttle.read (Throttle.UpdateAll ⟨0, 0⟩ [100, 100, 100]) 100 = 0 ∧
    Throttle.read (Throttle.UpdateAll ⟨0, 0⟩ [100, 100, 100, 101, 101]) 101
      = 0 := by
  refine ⟨?_, by decide, by decide⟩
  intro t s
  unfold Throttle.Update
  split <;> rfl

/-- Claim C8.  Reading a `Throttle`'s counter for a given second returns the
live count exactly when the second equals the stored bucket and zero
otherwise; `Throttle.read` embeds the `const` member `operator()` as a pure
function, so the read never modifies the state. -/
theorem throttle_read_spec :
    ∀ (t : Throttle) (s : Int),
      (s = t.tm → t.read s = t.n) ∧ (s ≠ t.tm → t.read s = 0) := by
  intro t s
  constructor
  · intro h
    simp [Throttle.read, h]
  · intro h
    simp [Throttle.read, h]

/-- Witness for C8 at the concrete state `{n = 7, tm = 100}`. -/
theorem throttle_read_spec_witness :
    Throttle.read ⟨7, 100⟩ 100 = 7 ∧ Throttle.read ⟨7, 100⟩ 99 = 0 :=
  ⟨(throttle_read_spec ⟨7, 100⟩ 100).1 rfl,
   (throttle_read_spec ⟨7, 100⟩ 99).2 (by decide)⟩

/-- Claim C6.  `Trade::operator!=` holds iff the two trades differ in at
least one of volume, close, high, low; trades agreeing on those four fields
compare as not materially changed whatever their qty, open and vwap. -/
theorem trade_neq_fields :
    ∀ a b : Trade,
      (Trade.neq a b = true ↔
        a.volume ≠ b.volume ∨ a.close ≠ b.close ∨ a.high ≠ b.high ∨
          a.low ≠ b.low) ∧
      (a.volume = b.volume → a.close = b.close → a.high = b.high →
        a.low = b.low → Trade.neq a b = false) := by
  intro a b
  constructor
  · simp [Trade.neq, or_assoc]
  · intro h1 h2 h3 h4
    simp [Trade.neq, h1, h2, h3, h4]

/-- Witness for C6: two trades differing only in qty, open and vwap are not
materially changed. -/
theorem trade_neq_fields_witness :
    Trade.neq ⟨1, 5, 2, 1, 3, 7, 100⟩ ⟨2, 6, 2, 1, 3, 8, 100⟩ = false :=
  (trade_neq_fields ⟨1, 5, 2, 1, 3, 7, 100⟩ ⟨2, 6, 2, 1, 3, 8, 100⟩).2
    rfl rfl rfl rfl

/-- Claim C7.  `Quote::operator==` is the exact boolean negation of
`Quote::operator!=`, and two quotes are unequal iff they differ in at least
one of ask price, bid price, ask size, bid size. -/
theorem quote_eq_neg_neq :
    ∀ a b : Quote,
      Quote.eq a b = !(Quote.neq a b) ∧
      (Quote.neq a b = true ↔
        a.ask_price ≠ b.ask_price ∨ a.bid_price ≠ b.bid_price ∨
          a.ask_size ≠ b.ask_size ∨ a.bid_size ≠ b.bid_size) := by
  intro a b
  refine ⟨rfl, ?_⟩
  simp [Quote.neq]
  tauto

/-- Witness for C7 at concrete quotes differing only in bid size. -/
theorem quote_eq_neg_neq_witness :
    Quote.neq ⟨1, 2, 3, 4⟩ ⟨1, 2, 3, 5⟩ = true :=
  (quote_eq_neg_neq ⟨1, 2, 3, 4⟩ ⟨1, 2, 3, 5⟩).2.mpr
    (Or.inr (Or.inr (Or.inr (by decide))))

/-- Claim C2 (code_bug evidence).  `SetDerived` resizes the backing vector to
`id` (not `id + 1`), so on a fresh record the write `(*derived)[id] = value`
is out of bounds (C++ undefined behaviour; a no-op in this total embedding):
storing the value ⟨type 1, payload 42⟩ in slot 0 of a fresh record leaves the
backing vector empty, and the subsequent matching-type read returns `none`
instead of the claimed `some 42`. -/
theorem setDerived_roundtrip_fails_on_fresh_record :
    (mdFresh.SetDerived ⟨1, 42⟩ 0).derived = some [] ∧
    (mdFresh.SetDerived ⟨1, 42⟩ 0).GetDerived 1 0 = none := by
  constructor <;> rfl

/-- Claim C4 (code_bug evidence).  After `SetDerived`'s lazy allocation and
conditional resize — faithfully `resize(id)` — the backing vector's size on a
fresh record at slot 0 is 0, not strictly greater than the slot, so the
out-of-bounds branch of the indexed write is reached (the write does not
land). -/
theorem setDerived_backing_not_larger_than_slot :
    (mdFresh.setDerivedBacking 0).length = 0 ∧
    ¬ 0 < (mdFresh.setDerivedBacking 0).length ∧
    ((mdFresh.setDerivedBacking 0).set 0 (some ⟨1, 42⟩)).length = 0 := by
  refine ⟨rfl, ?_, rfl⟩
  simp [mdFresh, MarketData.setDerivedBacking, resizeVec]

/-- Claim C9.  `GetDerived` is a total `Option`-valued function that returns
`none` — never raising to its caller — whenever the derived cache was never
allocated, the slot is out of range or was never written (an empty
`std::any`, whose `any_cast` throw is caught), or the stored tag differs from
the requested one. -/
theorem getDerived_total_absent :
    ∀ (md : MarketData) (T id : Nat),
      (md.derived = none → md.GetDerived T id = none) ∧
      (∀ d, md.derived = some d → d.getD id none = none →
        md.GetDerived T id = none) ∧
      (∀ d a, md.derived = some d → d.getD id none = some a → a.ty ≠ T →
        md.GetDerived T id = none) := by
  intro md T id
  refine ⟨?_, ?_, ?_⟩
  · intro h
    simp [MarketData.GetDerived, h]
  · intro d hd hslot
    rw [List.getD_eq_getElem?_getD] at hslot
    simp only [MarketData.GetDerived, hd]
    split
    · rfl
    · simp [hslot]
  · intro d a hd ha hty
    rw [List.getD_eq_getElem?_getD] at ha
    simp only [MarketData.GetDerived, hd]
    split
    · rfl
    · simp [ha, hty]

/-- Witness for C9: a record whose slot 0 holds a value of type tag 1, read
back at the mismatched tag 2, yields `none`. -/
theorem getDerived_total_absent_witness :
    MarketData.GetDerived { mdFresh with derived := some [some ⟨1, 42⟩] } 2 0
      = none :=
  (getDerived_total_absent { mdFresh with derived := some [some ⟨1, 42⟩] } 2
      0).2.2 [some ⟨1, 42⟩] ⟨1, 42⟩ rfl rfl (by decide)

/-- Every exposed operation preserves the disabled flag: `Disable` sets it,
and the two checks short-circuit to `(true, rm)` when it is set. -/
theorem step_preserves_disabled (rm : RiskManager) (op : RiskOp)
    (h : rm.disabled = true) : (rm.step op).disabled = true := by
  cases op with
  | disable => simp [RiskManager.step, RiskManager.Disable]
  | check o now => simp [RiskManager.step, RiskManager.Check, h]
  | checkMsgRate o now => simp [RiskManager.step, RiskManager.CheckMsgRate, h]

/-- The disabled flag, once set, survives any sequence of exposed
operations. -/
theorem run_preserves_disabled (ops : List RiskOp) :
    ∀ rm : RiskManager, rm.disabled = true → (rm.run ops).disabled = true := by
  induction ops with
  | nil => intro rm h; exact h
  | cons op rest ih =>
    intro rm h
    exact ih (rm.step op) (step_preserves_disabled rm op h)

/-- Claim C5.  Once `Disable()` has been called, `Check` returns true for
every order and current second regardless of the configured limits or any
exposed operations run in between, and the disabled flag stays set in every
reachable subsequent state.  (`Disable` and the disabled flag come from
`risk.h`; the bodies of `Check`/`CheckMsgRate` are modelled from the spec.) -/
theorem riskManager_disable_is_permanent :
    ∀ (rm : RiskManager) (ops : List RiskOp) (o : Order) (now : Int),
      ((rm.Disable.run ops).Check o now).1 = true ∧
      (rm.Disable.run ops).disabled = true := by
  intro rm ops o now
  have hd : (rm.Disable.run ops).disabled = true :=
    run_preserves_disabled ops rm.Disable rfl
  refine ⟨?_, hd⟩
  simp [RiskManager.Check, hd]

/-- Little-endian packing of an appended list splits additively. -/
theorem packLE_append (l1 l2 : List Nat) :
    packLE (l1 ++ l2) = packLE l1 + 256 ^ l1.length * packLE l2 := by
  induction l1 with
  | nil => simp [packLE]
  | cons c r ih =>
    simp [packLE, ih, pow_succ]
    ring

/-- Bound on little-endian packing: byte-valued entries pack below
`256 ^ length`. -/
theorem packLE_lt (name : List Nat) (h : ∀ c ∈ name, c ≤ 255) :
    packLE name < 256 ^ name.length := by
  induction name with
  | nil => simp [packLE]
  | cons c rest ih =>
    have hc : c ≤ 255 := h c (by simp)
    have hr : packLE rest < 256 ^ rest.length :=
      ih (fun x hx => h x (by simp [hx]))
    simp only [packLE, List.length_cons, pow_succ]
    omega

/-- `GetId`'s recursion is uniform: prepending a character multiplies the
tail's id by 256, adds the character and wraps at `2 ^ 32`. -/
theorem getId_cons (c : Nat) (rest : List Nat) :
    DataSrc.GetId (c :: rest) = (DataSrc.GetId rest * 256 + c) % 2 ^ 32 := by
  cases rest with
  | nil => simp [DataSrc.GetId]
  | cons d r => rfl

/-- The encoder computes exactly the little-endian packing of the first four
characters: the fifth and later characters are shifted out of the 32-bit
value. -/
theorem getId_eq_packLE_take (name : List Nat) (h : ∀ c ∈ name, c ≤ 255) :
    DataSrc.GetId name = packLE (name.take 4) := by
  induction name with
  | nil => rfl
  | cons c rest ih =>
    have hc : c ≤ 255 := h c (by simp)
    have hrest : ∀ x ∈ rest, x ≤ 255 := fun x hx => h x (by simp [hx])
    rw [getId_cons, ih hrest]
    by_cases hlen : rest.length ≤ 3
    · rw [List.take_of_length_le (by omega)]
      have hlt : packLE rest < 256 ^ rest.length := packLE_lt rest hrest
      have h3 : (256 : ℕ) ^ rest.length ≤ 256 ^ 3 :=
        Nat.pow_le_pow_right (by norm_num) hlen
      have hsmall : packLE rest * 256 + c < 2 ^ 32 := by
        have : (256 : ℕ) ^ 3 = 16777216 := by norm_num
        have h32 : (2 : ℕ) ^ 32 = 4294967296 := by norm_num
        omega
      rw [Nat.mod_eq_of_lt hsmall]
      have : (c :: rest).take 4 = c :: rest := by
        rw [List.take_of_length_le (by simp; omega)]
      rw [this]
      simp only [packLE]
      ring
    · push_neg at hlen
      obtain ⟨b, hb⟩ : ∃ b, rest[3]? = some b := by
        have : 3 < rest.length := hlen
        exact ⟨rest[3], List.getElem?_eq_getElem this⟩
      have hbmem : b ∈ rest := List.getElem?_mem hb
      have hble : b ≤ 255 := hrest b hbmem
      have htake : rest.take 4 = rest.take 3 ++ [b] := by
        rw [List.take_succ, hb]
        rfl
      have ht3len : (rest.take 3).length = 3 :=
        List.length_take_of_le (by omega)
      have ht3 : ∀ x ∈ rest.take 3, x ≤ 255 := fun x hx =>
        hrest x (List.mem_of_mem_take hx)
      have hlt3 : packLE (rest.take 3) < 256 ^ 3 := by
        have := packLE_lt (rest.take 3) ht3
        rwa [ht3len] at this
      rw [htake, packLE_append, ht3len]
      have hstep :
          (packLE (rest.take 3) + 256 ^ 3 * packLE [b]) * 256 + c
            = packLE (rest.take 3) * 256 + c + 2 ^ 32 * packLE [b] := by
        have : (256 : ℕ) ^ 3 * 256 = 2 ^ 32 := by norm_num
        ring_nf
      rw [hstep, Nat.add_mul_mod_self_left]
      have hsmall : packLE (rest.take 3) * 256 + c < 2 ^ 32 := by
        have h32 : (2 : ℕ) ^ 32 = 4294967296 := by norm_num
        have : (256 : ℕ) ^ 3 = 16777216 := by norm_num
        omega
      rw [Nat.mod_eq_of_lt hsmall]
      have : (c :: rest).take 4 = c :: rest.take 3 := rfl
      rw [this]
      simp only [packLE]
      ring

/-- Decoding the little-endian packing of a short, zero-free byte string
recovers the string (fuel-indexed version of the `GetStr` loop). -/
theorem getStrAux_packLE (name : List Nat) :
    ∀ fuel, name.length ≤ fuel → (∀ c ∈ name, 1 ≤ c ∧ c ≤ 255) →
      DataSrc.GetStrAux fuel (packLE name) = name := by
  induction name with
  | nil =>
    intro fuel _ _
    cases fuel with
    | zero => rfl
    | succ f => simp [packLE, DataSrc.GetStrAux]
  | cons c rest ih =>
    intro fuel hlen h
    cases fuel with
    | zero => simp at hlen
    | succ f =>
      have hc := h c (by simp)
      have hne : packLE (c :: rest) ≠ 0 := by
        simp only [packLE]
        omega
      have hmod : packLE (c :: rest) % 256 = c := by
        simp only [packLE]
        rw [Nat.add_mul_mod_self_left]
        exact Nat.mod_eq_of_lt (by omega)
      have hdiv : packLE (c :: rest) / 256 = packLE rest := by
        simp only [packLE]
        rw [Nat.add_mul_div_left _ _ (by norm_num : (0 : ℕ) < 256)]
        have : c / 256 = 0 := Nat.div_eq_of_lt (by omega)
        omega
      simp only [DataSrc.GetStrAux, hne, if_false, hmod, hdiv]
      rw [ih f (by simpa using hlen) (fun x hx => h x (by simp [hx]))]

/-- Claim C3.  For every 1–4 character ASCII name (character codes in
[1, 127]), decoding the encoded identifier yields the original name; the
encoding is injective on such names; the empty name encodes to 0; and 0
decodes to the empty string. -/
theorem dataSrc_codec_roundtrip :
    (∀ name : List Nat, 1 ≤ name.length → name.length ≤ 4 →
        (∀ c ∈ name, 1 ≤ c ∧ c ≤ 127) →
        DataSrc.GetStr (DataSrc.GetId name) = name) ∧
    (∀ n1 n2 : List Nat,
        1 ≤ n1.length → n1.length ≤ 4 → (∀ c ∈ n1, 1 ≤ c ∧ c ≤ 127) →
        1 ≤ n2.length → n2.length ≤ 4 → (∀ c ∈ n2, 1 ≤ c ∧ c ≤ 127) →
        DataSrc.GetId n1 = DataSrc.GetId n2 → n1 = n2) ∧
    DataSrc.GetId [] = 0 ∧ DataSrc.GetStr 0 = [] := by
  have round : ∀ name : List Nat, name.length ≤ 4 →
      (∀ c ∈ name, 1 ≤ c ∧ c ≤ 127) →
      DataSrc.GetStr (DataSrc.GetId name) = name := by
    intro name hlen h
    rw [getId_eq_packLE_take name fun c hc => le_trans (h c hc).2 (by norm_num),
      List.take_of_length_le hlen]
    exact getStrAux_packLE name 4 hlen fun c hc =>
      ⟨(h c hc).1, le_trans (h c hc).2 (by norm_num)⟩
  refine ⟨fun name _ hlen h => round name hlen h, ?_, rfl, rfl⟩
  intro n1 n2 _ hl1 h1 _ hl2 h2 heq
  have e1 := round n1 hl1 h1
  have e2 := round n2 hl2 h2
  rw [← e1, ← e2, heq]

/-- Witness for C3: the two-character name "OK" round-trips. -/
theorem dataSrc_codec_roundtrip_witness :
    DataSrc.GetStr (DataSrc.GetId [79, 75]) = [79, 75] :=
  dataSrc_codec_roundtrip.1 [79, 75] (by decide) (by decide) (by decide)

/-- Claim C10.  Encoding an ASCII name longer than four characters in the
32-bit wraparound arithmetic of `GetId` yields the same identifier as
encoding its first four characters, so the encoding is not injective there:
two distinct five-character names sharing a four-character prefix collide. -/
theorem getId_truncates_to_four :
    (∀ name : List Nat, 4 < name.length → (∀ c ∈ name, c ≤ 127) →
        DataSrc.GetId name = DataSrc.GetId (name.take 4)) ∧
    ([65, 65, 65, 65, 65] ≠ [65, 65, 65, 65, 66] ∧
      DataSrc.GetId [65, 65, 65, 65, 65]
        = DataSrc.GetId [65, 65, 65, 65, 66]) := by
  constructor
  · intro name _ h
    have h255 : ∀ c ∈ name, c ≤ 255 := fun c hc => le_trans (h c hc) (by norm_num)
    have h255t : ∀ c ∈ name.take 4, c ≤ 255 := fun c hc =>
      h255 c (List.mem_of_mem_take hc)
    rw [getId_eq_packLE_take name h255, getId_eq_packLE_take (name.take 4) h255t,
      List.take_take]
    simp
  · exact ⟨by decide, by decide⟩

/-- Witness for C10: a concrete five-character name encodes like its
four-character prefix. -/
theorem getId_truncates_to_four_witness :
    DataSrc.GetId [1, 2, 3, 4, 5] = DataSrc.GetId [1, 2, 3, 4] := by
  have h := getId_truncates_to_four.1 [1, 2, 3, 4, 5] (by decide) (by decide)
  simpa using h

end Opentrade
